import Mathlib

/-!
# Verification of the PEI activity-consistency scoring engine

Shallow embedding of the scoring core of the repository
(`src/utils.py`, `src/consistency.py`, `src/app.py`):

* the Similarity-Ranking scorer (`score_consistency`,
  `compute_consistency_for_df`, `build_tfidf_model` from `utils.py`),
* the Keyword-Group scorer (`_score_match`, `evaluate_consistency` from
  `consistency.py`),
* text normalization (`normalize_text` from `app.py`).

Python floats are modelled by exact rationals `ℚ`; Python strings by
Lean `String`/`List Char`.  Third-party library calls
(`sklearn`, `numpy`, `unidecode`, `pandas`) are embedded by their
documented behaviour on the inputs this code supplies, as noted at
each definition.
-/

namespace PEI

/-! ## Shared character-level utilities

`isSp` is Python's whitespace class restricted to ASCII (after
`unidecode`, every character handled here is ASCII): the characters
matched by `str.strip()` / regex `\s` on this corpus. -/

def isSp (c : Char) : Bool :=
  c = ' ' || c = '\t' || c = '\n' || c = '\r' || c = '\x0b' || c = '\x0c'

/-- Python `str.lower()` on the Latin-1 letters occurring in this
repository's texts: ASCII letters plus the accented Spanish capitals.
Identity on every other character. -/
def pyLowerChar (c : Char) : Char :=
  if 65 ≤ c.toNat ∧ c.toNat ≤ 90 then Char.ofNat (c.toNat + 32)
  else if c = 'Á' then 'á'
  else if c = 'É' then 'é'
  else if c = 'Í' then 'í'
  else if c = 'Ó' then 'ó'
  else if c = 'Ú' then 'ú'
  else if c = 'Ü' then 'ü'
  else if c = 'Ñ' then 'ñ'
  else c

def pyLower (l : List Char) : List Char := l.map pyLowerChar

def pyLowerStr (s : String) : String := ⟨pyLower s.data⟩

/-- Leading-whitespace removal (the left half of Python `str.strip()`). -/
def dropLead (l : List Char) : List Char := l.dropWhile isSp

/-- Trailing-whitespace removal (the right half of Python `str.strip()`),
written as a fold so that recursion is structural. -/
def dropTrail (l : List Char) : List Char :=
  l.foldr (fun c acc => if isSp c ∧ acc = [] then [] else c :: acc) []

/-- Python `str.strip()`. -/
def pyStrip (l : List Char) : List Char := dropTrail (dropLead l)

def pyStripStr (s : String) : String := ⟨pyStrip s.data⟩

/-- Worker for whitespace collapsing: `sp` records whether the previous
character was whitespace (in which case further whitespace is absorbed
into the single space already emitted). -/
def collapseGo (sp : Bool) : List Char → List Char
  | [] => []
  | c :: t =>
      if isSp c then
        if sp then collapseGo true t else ' ' :: collapseGo true t
      else c :: collapseGo false t

/-- Python `re.sub(r"\s+", " ", s)`: every maximal whitespace run
becomes a single space. -/
def collapseWS (l : List Char) : List Char := collapseGo false l

/-- Python `str.split()` (no separator): maximal runs of
non-whitespace characters, in order; never produces empty words. -/
def pySplitGo (cur : List Char) : List Char → List (List Char)
  | [] => if cur = [] then [] else [cur.reverse]
  | c :: t =>
      if isSp c then
        if cur = [] then pySplitGo [] t else cur.reverse :: pySplitGo [] t
      else pySplitGo (c :: cur) t

def pySplit (l : List Char) : List (List Char) := pySplitGo [] l

/-! ## `utils.py`: `score_consistency` -/

/-- Function `score_consistency` from `src/utils.py` (lines 44-80), translated
statement by statement; Python's early `return`s become nested `if`s.
`0.000001` is the source's `1e-6` guard against division by zero. -/
def score_consistency (sim_selected sim_best : ℚ) (rank_selected : ℤ) : ℤ :=
  if sim_best < 0.10 then 30
  else
    let ratio : ℚ := sim_selected / (sim_best + 0.000001)
    if rank_selected = 1 then
      if sim_selected ≥ 0.40 ∧ ratio ≥ 0.95 then 100
      else if sim_selected ≥ 0.30 ∧ ratio ≥ 0.90 then 90
      else if sim_selected ≥ 0.20 ∧ ratio ≥ 0.80 then 70
      else 50
    else if (rank_selected = 2 ∨ rank_selected = 3) ∧ ratio ≥ 0.70 then 30
    else if ratio ≥ 0.40 then 10
    else 0

/-- The flat top-to-bottom decision table exactly as the specification
writes it (§4.3): first matching row wins, with
`ratio = sim_selected / (sim_best + 1e-6)`. -/
def specScoreTable (sim_selected sim_best : ℚ) (rank_selected : ℤ) : ℤ :=
  let ratio : ℚ := sim_selected / (sim_best + 0.000001)
  if sim_best < 0.10 then 30
  else if rank_selected = 1 ∧ sim_selected ≥ 0.40 ∧ ratio ≥ 0.95 then 100
  else if rank_selected = 1 ∧ sim_selected ≥ 0.30 ∧ ratio ≥ 0.90 then 90
  else if rank_selected = 1 ∧ sim_selected ≥ 0.20 ∧ ratio ≥ 0.80 then 70
  else if rank_selected = 1 then 50
  else if (rank_selected = 2 ∨ rank_selected = 3) ∧ ratio ≥ 0.70 then 30
  else if ratio ≥ 0.40 then 10
  else 0

/-- C1: `score_consistency` realizes exactly the specification's
top-to-bottom first-match decision table on
`(sim_selected, sim_best, rank_selected)`, with
`ratio = sim_selected / (sim_best + 1e-6)`. -/
theorem score_consistency_matches_decision_table
    (s b : ℚ) (r : ℤ) : score_consistency s b r = specScoreTable s b r := by
  unfold score_consistency specScoreTable
  by_cases hb : b < 0.10
  · simp [hb]
  · by_cases hr1 : r = 1 <;> simp [hb, hr1]

/-- C5: on every input triple, `score_consistency` returns a member of
the seven-level scale `{0, 10, 30, 50, 70, 90, 100}`. -/
theorem score_consistency_scale_closure
    (s b : ℚ) (r : ℤ) :
    score_consistency s b r ∈ ([0, 10, 30, 50, 70, 90, 100] : List ℤ) := by
  simp only [score_consistency]
  split_ifs <;> simp

/-! ## `consistency.py`: the Keyword-Group scorer -/

/-- Python's substring test `k in text`, on character lists. -/
def containsSub (needle haystack : List Char) : Bool :=
  decide (needle <:+: haystack)

/-- Python `round` ties-to-even on an exact rational. -/
def roundHalfEven (x : ℚ) : ℤ :=
  let n := ⌊x⌋
  if x - n < 1/2 then n
  else if x - n > 1/2 then n + 1
  else if Even n then n else n + 1

/-- Python `round(x, 1)`: round to one decimal place, ties to even. -/
def pyRound1 (x : ℚ) : ℚ := (roundHalfEven (x * 10) : ℚ) / 10

/-- Function `_score_match` from `src/consistency.py` (lines 4-14): lower-case
the activity, count how many keywords occur as substrings, and map the
count to `1.0` / `0.5` / `0.0`. -/
def _score_match (activity : String) (keywords : List String) : ℚ :=
  let text := pyLowerStr activity
  let nMatches := keywords.countP (fun k => containsSub k.data text.data)
  if nMatches ≥ 2 then 1.0
  else if nMatches = 1 then 0.5
  else 0.0

/-- The fixed, ordered thematic-group dictionary of
`evaluate_consistency` (Python dicts iterate in insertion order). -/
def thematic_groups : List (String × List String) :=
  [("calidad", ["monitoreo", "seguimiento", "evaluación", "mejora", "indicador"]),
   ("convenios", ["convenio", "articulación", "alianza", "acuerdo"]),
   ("docencia", ["capacitación", "formación", "docente", "curso", "clase"]),
   ("investigación", ["proyecto", "investigación", "paper", "publicación"]),
   ("extensión", ["extensión", "comunidad", "social", "vinculación"]),
   ("gestión", ["reunión", "planificación", "comisión", "organización", "gestión"])]

/-- The fixed action-verb list of `evaluate_consistency`. -/
def action_verbs : List String :=
  ["realizar", "implementar", "evaluar", "crear", "organizar",
   "desarrollar", "monitorear", "diseñar", "consolidar", "actualizar"]

/-- The category-detection loop of `evaluate_consistency`
(`for cat, words in thematic_groups.items(): ... break`): first group
with any keyword occurring in the (lower-cased) objective wins,
default `"otros"`. -/
def detectCategoryGo (obj : List Char) : List (String × List String) → String
  | [] => "otros"
  | (cat, words) :: rest =>
      if words.any (fun w => containsSub w.data obj) then cat
      else detectCategoryGo obj rest

/-- Function `evaluate_consistency` from `src/consistency.py` (lines 17-65),
translated statement by statement. -/
def evaluate_consistency (objective activity : String) : ℚ :=
  let obj := pyLowerStr objective
  let act := pyLowerStr activity
  let category := detectCategoryGo obj.data thematic_groups
  let base_keywords : List String :=
    ((pySplit obj.data).filter (fun w => w.length > 3)).map (fun w => ⟨w⟩)
  let semantic := _score_match act base_keywords
  let thematic_keywords := (thematic_groups.lookup category).getD []
  let thematic := _score_match act thematic_keywords
  let is_action := action_verbs.any (fun v => containsSub v.data act.data)
  let operational : ℚ :=
    if is_action then 1.0
    else if (pyStrip act.data).length > 3 then 0.5
    else 0.0
  let IC := semantic * 0.40 + thematic * 0.40 + operational * 0.20
  pyRound1 (IC * 100)

/-- The per-cell lambda of `add_consistency_to_clean`
(`src/consistency.py` lines 83-87): score the pair unless the raw
activity strips to the empty string, in which case force `0.0`. -/
def clean_consistency_cell (objective activity : String) : ℚ :=
  if pyStripStr activity ≠ "" then evaluate_consistency objective activity
  else 0.0

/-! ### Helper lemmas on the character utilities -/

theorem toNat_ofNat_valid {n : ℕ} (h : n < 55296) : (Char.ofNat n).toNat = n := by
  rw [Char.ofNat, dif_pos (Or.inl h)]
  rfl

theorem pyLowerChar_eq_self_of_le {d : Char}
    (hle : d.toNat ≤ 122) (hni : ¬(65 ≤ d.toNat ∧ d.toNat ≤ 90)) :
    pyLowerChar d = d := by
  rw [pyLowerChar, if_neg hni,
    if_neg (by rintro rfl; exact absurd hle (by decide)),
    if_neg (by rintro rfl; exact absurd hle (by decide)),
    if_neg (by rintro rfl; exact absurd hle (by decide)),
    if_neg (by rintro rfl; exact absurd hle (by decide)),
    if_neg (by rintro rfl; exact absurd hle (by decide)),
    if_neg (by rintro rfl; exact absurd hle (by decide)),
    if_neg (by rintro rfl; exact absurd hle (by decide))]

theorem pyLowerChar_idem (c : Char) : pyLowerChar (pyLowerChar c) = pyLowerChar c := by
  by_cases h : 65 ≤ c.toNat ∧ c.toNat ≤ 90
  · have hval : (Char.ofNat (c.toNat + 32)).toNat = c.toNat + 32 :=
      toNat_ofNat_valid (by omega)
    have hc : pyLowerChar c = Char.ofNat (c.toNat + 32) := by
      rw [pyLowerChar, if_pos h]
    rw [hc, pyLowerChar_eq_self_of_le (by omega) (by omega)]
  · rcases eq_or_ne c 'Á' with rfl | h1
    · decide
    rcases eq_or_ne c 'É' with rfl | h2
    · decide
    rcases eq_or_ne c 'Í' with rfl | h3
    · decide
    rcases eq_or_ne c 'Ó' with rfl | h4
    · decide
    rcases eq_or_ne c 'Ú' with rfl | h5
    · decide
    rcases eq_or_ne c 'Ü' with rfl | h6
    · decide
    rcases eq_or_ne c 'Ñ' with rfl | h7
    · decide
    have hc : pyLowerChar c = c := by
      rw [pyLowerChar, if_neg h, if_neg h1, if_neg h2, if_neg h3, if_neg h4,
        if_neg h5, if_neg h6, if_neg h7]
    simp only [hc]

theorem pyLower_idem (l : List Char) : pyLower (pyLower l) = pyLower l := by
  simp only [pyLower, List.map_map]
  exact List.map_congr_left fun a _ => pyLowerChar_idem a

theorem pyLowerStr_idem (s : String) : pyLowerStr (pyLowerStr s) = pyLowerStr s :=
  congrArg String.mk (pyLower_idem s.data)

/-! ### C8: category assignment is first-match-wins -/

/-- The specification's reading of category assignment (§4.4 step 1):
the FIRST category in the fixed enumeration order with any keyword
occurring as a substring of the lower-cased objective; default when
none matches. -/
def specAssignedCategory (objective : String) : String :=
  ((thematic_groups.find?
      (fun q => q.2.any (fun w => containsSub w.data (pyLower objective.data)))).map
    Prod.fst).getD "otros"

theorem detectCategoryGo_eq_find (obj : List Char) (l : List (String × List String)) :
    detectCategoryGo obj l =
      ((l.find? (fun q => q.2.any (fun w => containsSub w.data obj))).map Prod.fst).getD
        "otros" := by
  induction l with
  | nil => rfl
  | cons hd tl ih =>
      obtain ⟨cat, words⟩ := hd
      rw [detectCategoryGo, List.find?]
      by_cases h : words.any (fun w => containsSub w.data obj) = true
      · simp [h]
      · simp only [Bool.not_eq_true] at h
        simp [h, ih]

/-- C8: the category used by `evaluate_consistency` is assigned by
iterating the fixed ordered category list and taking the first
category with a keyword occurring in the lower-cased objective text
(first-match-wins), with the default category when none matches. -/
theorem category_assignment_first_match (objective : String) :
    detectCategoryGo (pyLowerStr objective).data thematic_groups =
      specAssignedCategory objective :=
  detectCategoryGo_eq_find (pyLower objective.data) thematic_groups

/-! ### C7: the full Keyword-Group scoring formula -/

/-- Spec: map a keyword-match count to a sub-score
(`≥2 → 1.0`, `==1 → 0.5`, `0 → 0.0`). -/
def specMapCount (n : ℕ) : ℚ :=
  if n ≥ 2 then 1.0 else if n = 1 then 0.5 else 0.0

/-- Spec: count how many keywords appear as substrings of the
lower-cased activity text and map the count. -/
def specSubScore (keywords : List String) (activity : String) : ℚ :=
  specMapCount (keywords.countP (fun k => containsSub k.data (pyLower activity.data)))

/-- Spec: the semantic keyword list — all words longer than 3
characters in the (lower-cased) objective text. -/
def specSemanticKeywords (objective : String) : List String :=
  ((pySplit (pyLower objective.data)).filter (fun w => w.length > 3)).map (fun w => ⟨w⟩)

/-- Spec: the assigned category's keyword set. -/
def specThematicKeywords (objective : String) : List String :=
  (thematic_groups.lookup (specAssignedCategory objective)).getD []

/-- Spec: the operational sub-score — `1.0` if any fixed action verb
occurs in the (lower-cased) activity text, `0.5` if the trimmed
activity text has length `> 3` but no action verb, else `0.0`. -/
def specOperational (activity : String) : ℚ :=
  if action_verbs.any (fun v => containsSub v.data (pyLower activity.data)) then 1.0
  else if (pyStrip (pyLower activity.data)).length > 3 then 0.5
  else 0.0

/-- C7: `evaluate_consistency` computes the semantic and thematic
sub-scores by substring-count mapping, the operational sub-score by
the action-verb / length rule, and returns
`round((semantic*0.40 + thematic*0.40 + operational*0.20) * 100, 1)`. -/
theorem evaluate_consistency_formula (objective activity : String) :
    evaluate_consistency objective activity =
      pyRound1 ((specSubScore (specSemanticKeywords objective) activity * 0.40 +
          specSubScore (specThematicKeywords objective) activity * 0.40 +
          specOperational activity * 0.20) * 100) := by
  simp only [evaluate_consistency, _score_match, specSubScore, specMapCount,
    specSemanticKeywords, specThematicKeywords, specOperational,
    category_assignment_first_match, pyLowerStr_idem]
  rfl

/-! ### C10: the Keyword-Group score is a multiple of ten -/

theorem score_match_cases (activity : String) (keywords : List String) :
    _score_match activity keywords = 0.0 ∨ _score_match activity keywords = 0.5 ∨
      _score_match activity keywords = 1.0 := by
  simp only [_score_match]
  split_ifs <;> simp

theorem roundTen {a b c : ℚ}
    (ha : a = 0.0 ∨ a = 0.5 ∨ a = 1.0)
    (hb : b = 0.0 ∨ b = 0.5 ∨ b = 1.0)
    (hc : c = 0.0 ∨ c = 0.5 ∨ c = 1.0) :
    pyRound1 ((a * 0.40 + b * 0.40 + c * 0.20) * 100) ∈
      ([0, 10, 20, 30, 40, 50, 60, 70, 80, 90, 100] : List ℚ) := by
  rcases ha with rfl | rfl | rfl <;> rcases hb with rfl | rfl | rfl <;>
    rcases hc with rfl | rfl | rfl <;>
    norm_num [pyRound1, roundHalfEven]

/-- C10: on every objective/activity pair, the Keyword-Group score is
an exact multiple of 10 in `{0, 10, ..., 100}`. -/
theorem evaluate_consistency_multiple_of_ten (objective activity : String) :
    evaluate_consistency objective activity ∈
      ([0, 10, 20, 30, 40, 50, 60, 70, 80, 90, 100] : List ℚ) := by
  simp only [evaluate_consistency]
  exact roundTen (score_match_cases _ _) (score_match_cases _ _)
    (by split_ifs <;> simp)

/-! ### C6: whitespace-only activities never score positively -/

theorem pyLowerChar_of_isSp {c : Char} (h : isSp c = true) : pyLowerChar c = c := by
  simp only [isSp, Bool.or_eq_true, decide_eq_true_eq] at h
  rcases h with ((((rfl | rfl) | rfl) | rfl) | rfl) | rfl <;> decide

theorem map_eq_self_of_forall {α} {f : α → α} :
    ∀ {l : List α}, (∀ a ∈ l, f a = a) → l.map f = l
  | [], _ => rfl
  | a :: t, h => by
      rw [List.map_cons, h a (List.mem_cons_self a t),
        map_eq_self_of_forall fun x hx => h x (List.mem_cons_of_mem a hx)]

theorem pyLowerStr_of_allSp {s : String} (h : ∀ c ∈ s.data, isSp c = true) :
    pyLowerStr s = s :=
  congrArg String.mk (map_eq_self_of_forall fun c hc => pyLowerChar_of_isSp (h c hc))

theorem containsSub_eq_false_of_allSp {k l : List Char}
    (hk : ∃ c ∈ k, isSp c = false) (hl : ∀ c ∈ l, isSp c = true) :
    containsSub k l = false := by
  simp only [containsSub, decide_eq_false_iff_not]
  intro hinf
  obtain ⟨c, hck, hcs⟩ := hk
  rw [hl c (hinf.subset hck)] at hcs
  cases hcs

theorem pySplitGo_words :
    ∀ (l cur : List Char), (∀ c ∈ cur, isSp c = false) →
      ∀ w ∈ pySplitGo cur l, w ≠ [] ∧ ∀ c ∈ w, isSp c = false
  | [], cur, hcur, w, hw => by
      rw [pySplitGo] at hw
      by_cases hc : cur = []
      · rw [if_pos hc] at hw
        cases hw
      · rw [if_neg hc] at hw
        rcases List.mem_singleton.mp hw with rfl
        refine ⟨by simpa using hc, fun c hc' => hcur c (List.mem_reverse.mp hc')⟩
  | a :: t, cur, hcur, w, hw => by
      rw [pySplitGo] at hw
      by_cases hs : isSp a = true
      · rw [if_pos hs] at hw
        by_cases hc : cur = []
        · rw [if_pos hc] at hw
          exact pySplitGo_words t [] (by simp) w hw
        · rw [if_neg hc] at hw
          rcases List.mem_cons.mp hw with rfl | hw'
          · exact ⟨by simpa using hc, fun c hc' => hcur c (List.mem_reverse.mp hc')⟩
          · exact pySplitGo_words t [] (by simp) w hw'
      · rw [if_neg hs] at hw
        refine pySplitGo_words t (a :: cur) ?_ w hw
        intro x hx
        rcases List.mem_cons.mp hx with rfl | hx'
        · simpa using hs
        · exact hcur x hx'

theorem lookup_mem_values {α β : Type} [BEq α] :
    ∀ {l : List (α × β)} {a : α} {b : β}, l.lookup a = some b → b ∈ l.map Prod.snd
  | [], _, _, h => by cases h
  | (k, v) :: t, a, b, h => by
      rw [List.lookup] at h
      by_cases hk : (a == k) = true
      · rw [hk] at h
        cases h
        exact List.mem_cons_self _ _
      · rw [Bool.not_eq_true] at hk
        rw [hk] at h
        exact List.mem_cons_of_mem _ (lookup_mem_values h)

/-- Every keyword of every thematic group contains a non-whitespace
character (a concrete check over the fixed dictionary). -/
theorem thematic_keywords_nonspace :
    ∀ ws ∈ thematic_groups.map Prod.snd, ∀ w ∈ ws, ∃ c ∈ w.data, isSp c = false := by
  decide

/-- Every action verb contains a non-whitespace character. -/
theorem action_verbs_nonspace :
    ∀ v ∈ action_verbs, ∃ c ∈ v.data, isSp c = false := by
  decide

theorem score_match_allSp (activity : String) (keywords : List String)
    (hact : ∀ c ∈ activity.data, isSp c = true)
    (hkw : ∀ k ∈ keywords, ∃ c ∈ k.data, isSp c = false) :
    _score_match activity keywords = 0.0 := by
  simp only [_score_match, pyLowerStr_of_allSp hact]
  rw [List.countP_eq_zero.mpr]
  · norm_num
  · intro k hk
    simp only [Bool.not_eq_true]
    exact containsSub_eq_false_of_allSp (hkw k hk) hact

/-- C6: if the activity text consists only of whitespace, both the raw
Keyword-Group score (`evaluate_consistency`) and the guarded per-cell
score of `add_consistency_to_clean` are `0.0`, for every objective. -/
theorem empty_activity_scores_zero (objective activity : String)
    (h : ∀ c ∈ activity.data, isSp c = true) :
    evaluate_consistency objective activity = 0 ∧
      clean_consistency_cell objective activity = 0 := by
  have hstrip : pyStrip activity.data = [] := by
    have hlead : dropLead activity.data = [] :=
      List.dropWhile_eq_nil_iff.mpr fun x hx => h x hx
    rw [pyStrip, hlead]
    rfl
  have heval : evaluate_consistency objective activity = 0 := by
    simp only [evaluate_consistency, pyLowerStr_of_allSp h]
    have hsem : _score_match activity
        (((pySplit (pyLowerStr objective).data).filter (fun w => w.length > 3)).map
          (fun w => (⟨w⟩ : String))) = 0.0 := by
      refine score_match_allSp _ _ h fun k hk => ?_
      obtain ⟨w, hw, rfl⟩ := List.mem_map.mp hk
      have hw' := (List.mem_filter.mp hw).1
      obtain ⟨hne, hns⟩ := pySplitGo_words (pyLowerStr objective).data [] (by simp) w hw'
      obtain ⟨c, hc⟩ := List.exists_mem_of_ne_nil w hne
      exact ⟨c, hc, hns c hc⟩
    have hthe : _score_match activity
        ((thematic_groups.lookup
          (detectCategoryGo (pyLowerStr objective).data thematic_groups)).getD []) = 0.0 := by
      refine score_match_allSp _ _ h fun k hk => ?_
      rcases hlk : thematic_groups.lookup
          (detectCategoryGo (pyLowerStr objective).data thematic_groups) with _ | ws
      · rw [hlk] at hk
        cases hk
      · rw [hlk] at hk
        exact thematic_keywords_nonspace ws (lookup_mem_values hlk) k hk
    have hact : action_verbs.any (fun v => containsSub v.data activity.data) = false := by
      rw [List.any_eq_false]
      intro v hv
      simp only [Bool.not_eq_true]
      exact containsSub_eq_false_of_allSp (action_verbs_nonspace v hv) h
    rw [hsem, hthe, hact, hstrip]
    norm_num [pyRound1, roundHalfEven]
  refine ⟨heval, ?_⟩
  have hcell : pyStripStr activity = "" := congrArg String.mk hstrip
  rw [clean_consistency_cell, hcell]
  norm_num

theorem empty_activity_scores_zero_witness :
    (∀ c ∈ ("  " : String).data, isSp c = true) ∧
      (evaluate_consistency "monitoreo de calidad" "  " = 0 ∧
        clean_consistency_cell "monitoreo de calidad" "  " = 0) :=
  ⟨by decide, empty_activity_scores_zero "monitoreo de calidad" "  " (by decide)⟩

/-! ## `app.py`: `normalize_text` -/

/-- Function `unidecode` from the `unidecode` package, modelled on the Latin-1
letters occurring in this repository's Spanish-language corpus
(transliteration to ASCII); identity on every other character. -/
def unidecodeChar (c : Char) : Char :=
  if c = 'á' then 'a'
  else if c = 'Á' then 'A'
  else if c = 'é' then 'e'
  else if c = 'É' then 'E'
  else if c = 'í' then 'i'
  else if c = 'Í' then 'I'
  else if c = 'ó' then 'o'
  else if c = 'Ó' then 'O'
  else if c = 'ú' then 'u'
  else if c = 'Ú' then 'U'
  else if c = 'ü' then 'u'
  else if c = 'Ü' then 'U'
  else if c = 'ñ' then 'n'
  else if c = 'Ñ' then 'N'
  else c

def unidecode (l : List Char) : List Char := l.map unidecodeChar

/-- Function `normalize_text` from `src/app.py` (lines 17-25).  A `pd.isna`
input is modelled as `none`; otherwise the source applies, in order,
`unidecode`, `.lower()`, `.strip()`, and `re.sub(r"\s+", " ", ·)`. -/
def normalize_text : Option String → String
  | none => ""
  | some s => ⟨collapseWS (pyStrip (pyLower (unidecode s.data)))⟩

/-- The specification's reading of normalization (§4.1): lower-cased,
diacritics removed, interior whitespace collapsed to single spaces,
and leading/trailing whitespace trimmed. -/
def specNormalize (s : String) : String :=
  ⟨pyStrip (collapseWS (pyLower (unidecode s.data)))⟩

/-! ### Commutation of stripping and collapsing -/

theorem dropLead_collapseGo : ∀ (l : List Char) (b : Bool),
    dropLead (collapseGo b l) = collapseGo false (dropLead l)
  | [], _ => rfl
  | c :: t, b => by
      have hsp : isSp ' ' = true := rfl
      have ih := dropLead_collapseGo t true
      by_cases hs : isSp c = true
      · cases b <;> simp [collapseGo, dropLead, List.dropWhile_cons, hs, hsp] <;>
          simpa [dropLead] using ih
      · have hsf : isSp c = false := by rwa [Bool.not_eq_true] at hs
        simp [collapseGo, dropLead, List.dropWhile_cons, hsf]

theorem dropTrail_cons (c : Char) (t : List Char) :
    dropTrail (c :: t) =
      if isSp c ∧ dropTrail t = [] then [] else c :: dropTrail t := by
  simp only [dropTrail, List.foldr_cons]

theorem dropTrail_exists_nonspace :
    ∀ l : List Char, dropTrail l ≠ [] → ∃ c ∈ dropTrail l, isSp c = false
  | [], h => absurd rfl h
  | c :: t, h => by
      rw [dropTrail_cons] at h ⊢
      by_cases hand : isSp c = true ∧ dropTrail t = []
      · rw [if_pos hand] at h
        exact absurd rfl h
      · rw [if_neg hand] at h ⊢
        by_cases ht : dropTrail t = []
        · have hc : isSp c = false := by
            rcases Bool.eq_false_or_eq_true (isSp c) with htr | hf
            · exact absurd ⟨htr, ht⟩ hand
            · exact hf
          exact ⟨c, List.mem_cons_self _ _, hc⟩
        · obtain ⟨d, hd, hds⟩ := dropTrail_exists_nonspace t ht
          exact ⟨d, List.mem_cons_of_mem _ hd, hds⟩

theorem collapseGo_ne_nil : ∀ (l : List Char) (b : Bool),
    (∃ c ∈ l, isSp c = false) → collapseGo b l ≠ []
  | [], _, h => by
      obtain ⟨c, hc, _⟩ := h
      cases hc
  | c :: t, b, h => by
      by_cases hs : isSp c = true
      · have ht : ∃ d ∈ t, isSp d = false := by
          obtain ⟨d, hd, hds⟩ := h
          rcases List.mem_cons.mp hd with rfl | hd'
          · rw [hs] at hds
            cases hds
          · exact ⟨d, hd', hds⟩
        simp only [collapseGo, hs, if_true]
        cases b
        · simp only [Bool.false_eq_true, if_false]
          exact List.cons_ne_nil _ _
        · simp only [if_true]
          exact collapseGo_ne_nil t true ht
      · rw [Bool.not_eq_true] at hs
        simp only [collapseGo, hs, Bool.false_eq_true, if_false]
        exact List.cons_ne_nil _ _

theorem dropTrail_collapseGo : ∀ (l : List Char) (b : Bool),
    dropTrail (collapseGo b l) = collapseGo b (dropTrail l)
  | [], _ => rfl
  | c :: t, b => by
      have hsp : isSp ' ' = true := rfl
      have ih := dropTrail_collapseGo t true
      have ihf := dropTrail_collapseGo t false
      by_cases hs : isSp c = true
      · by_cases ht : dropTrail t = []
        · cases b <;> simp [collapseGo, dropTrail_cons, hs, ht, ih, hsp]
        · have hne : collapseGo true (dropTrail t) ≠ [] :=
            collapseGo_ne_nil _ true (dropTrail_exists_nonspace t ht)
          cases b <;> simp [collapseGo, dropTrail_cons, hs, ht, ih, hsp, hne]
      · have hsf : isSp c = false := by rwa [Bool.not_eq_true] at hs
        simp [collapseGo, dropTrail_cons, hsf, ihf]

theorem collapse_strip_comm (l : List Char) :
    collapseWS (pyStrip l) = pyStrip (collapseWS l) := by
  rw [pyStrip, pyStrip, collapseWS, collapseWS, dropLead_collapseGo,
    dropTrail_collapseGo]

/-- C9: `normalize_text` returns the input lower-cased, diacritics
removed, interior whitespace collapsed and leading/trailing whitespace
trimmed; missing input yields `""`; and
`normalize_text "Árbol  Único" = "arbol unico"`. -/
theorem normalize_text_contract :
    normalize_text none = "" ∧
      normalize_text (some "Árbol  Único") = "arbol unico" ∧
      ∀ s : String, normalize_text (some s) = specNormalize s := by
  refine ⟨rfl, by decide, fun s => ?_⟩
  exact congrArg String.mk (collapse_strip_comm _)

/-! ## `utils.py`: `build_tfidf_model` and `compute_consistency_for_df`

The vectorizer is `sklearn`'s
`TfidfVectorizer(lowercase=True, ngram_range=(1, 2),
stop_words=STOPWORDS_ES, min_df=1)`.  Its vocabulary construction
(tokenization, stop-word removal, 1-2-gram extraction) and its
empty-vocabulary `ValueError` are embedded below.  The tf-idf weights
themselves (`idf(t) = ln((1+n)/(1+df(t))) + 1` followed by l2
normalization) are irrational-valued, so the batch scorer consumes
the cosine-similarity matrix as an explicit parameter `sim`; every
other step of `compute_consistency_for_df` is translated directly. -/

/-- The list `STOPWORDS_ES` from `src/utils.py` (lines 9-12). -/
def STOPWORDS_ES : List String :=
  ["de", "la", "el", "los", "las", "y", "en", "del", "para", "con",
   "a", "por", "una", "un", "al", "que", "se", "su", "sus"]

/-- A word character of the default sklearn token pattern `\w\w+`
(ASCII letters, digits, underscore; non-ASCII code points — the
accented Spanish letters — are word characters too). -/
def isWordChar (c : Char) : Bool :=
  c.isAlphanum || c = '_' || decide (127 < c.toNat)

/-- Maximal runs of word characters, in order. -/
def wordRunsGo (cur : List Char) : List Char → List (List Char)
  | [] => if cur = [] then [] else [cur.reverse]
  | c :: t =>
      if isWordChar c then wordRunsGo (c :: cur) t
      else if cur = [] then wordRunsGo [] t
      else cur.reverse :: wordRunsGo [] t

/-- sklearn tokenization with `lowercase=True` and token pattern
`\w\w+`: lower-case, take maximal word-character runs, keep tokens of
at least two characters. -/
def sk_tokenize (s : String) : List String :=
  ((wordRunsGo [] (pyLower s.data)).filter (fun w => 2 ≤ w.length)).map (fun w => ⟨w⟩)

/-- sklearn `_word_ngrams` for `ngram_range=(1, 2)`: the unigrams
followed by the bigrams (adjacent tokens joined by a space), built
from the stop-word-filtered token stream. -/
def sk_ngrams (tokens : List String) : List String :=
  tokens ++ List.zipWith (fun a b => a ++ " " ++ b) tokens tokens.tail

/-- The features one document contributes to the vocabulary. -/
def sk_features (doc : String) : List String :=
  sk_ngrams ((sk_tokenize doc).filter (fun w => !STOPWORDS_ES.contains w))

/-- First-occurrence deduplication (`pandas.drop_duplicates` keeps the
first of each duplicate group, preserving order). -/
def dedupFirstGo {α : Type} [DecidableEq α] (seen : List α) : List α → List α
  | [] => []
  | a :: t =>
      if a ∈ seen then dedupFirstGo seen t
      else a :: dedupFirstGo (a :: seen) t

def dedupFirst {α : Type} [DecidableEq α] (l : List α) : List α := dedupFirstGo [] l

/-- The fitted model state relevant to control flow: the vocabulary. -/
structure TfidfModel where
  vocab : List String
  deriving DecidableEq

/-- Function `build_tfidf_model` from `src/utils.py` (lines 15-41): fit the
joint vectorizer over objectives ++ activities.  sklearn's
`CountVectorizer._count_vocab` raises
`ValueError("empty vocabulary; perhaps the documents only contain
stop words")` when no feature occurs in the corpus — in particular on
an empty corpus — which `Except.error` models. -/
def build_tfidf_model (textos_objetivos textos_actividades : List String) :
    Except String TfidfModel :=
  let corpus := textos_objetivos ++ textos_actividades
  let vocab := dedupFirst (corpus.flatMap sk_features)
  if vocab.isEmpty then
    .error "empty vocabulary; perhaps the documents only contain stop words"
  else .ok ⟨vocab⟩

/-- One input row of `compute_consistency_for_df`, after the
`astype(str)` / `fillna("")` conversions the source applies: chosen
objective code, objective text, activity, activity detail. -/
structure ActRow where
  codigo : String
  objetivo : String
  actividad : String
  detalle : String
  deriving DecidableEq

/-- The five columns `compute_consistency_for_df` appends per row. -/
structure ScoreResult where
  score : ℤ
  best : Option String
  simSel : ℚ
  simBest : ℚ
  rank : Option ℕ
  deriving DecidableEq

/-- An output row: the input row with its appended score columns. -/
structure ScoredRow where
  row : ActRow
  result : ScoreResult
  deriving DecidableEq

/-- The dict `idx_by_codigo = {c: i for i, c in enumerate(codigos)}`
followed by lookup: for duplicated codes the LAST index wins (later
dict insertions overwrite earlier ones); absent codes give `none`. -/
def lookupLast (codigos : List String) (c : String) : Option ℕ :=
  ((codigos.enum.filter (fun p => p.2 == c)).getLast?).map Prod.fst

/-- Row access `sims[j]` (entry of the similarity matrix row into the similarity matrix row). -/
def simAt (sims : List ℚ) (j : ℕ) : ℚ := sims.getD j 0

/-- Python `sims.max()` (numpy max of a row; rows are nonempty whenever the
source reaches this call). -/
def npMax (sims : List ℚ) : ℚ := sims.foldl max (sims.headD 0)

/-- Index comparator used to realize `(-sims).argsort()` below:
descending similarity, with equal similarities ordered by index. -/
def rankLE (sims : List ℚ) (a b : ℕ) : Prop :=
  simAt sims a > simAt sims b ∨ (simAt sims a = simAt sims b ∧ a ≤ b)

instance rankLE_dec (sims : List ℚ) : DecidableRel (rankLE sims) := fun a b => by
  unfold rankLE
  infer_instance

/-- Python `order = (-sims).argsort()` from `src/utils.py` line 155,
with numpy's default `kind='quicksort'`.  numpy guarantees a
permutation of `0, ..., n-1` listing the indices by descending
similarity, but documents this kind as NOT stable: the relative order
of indices with EQUAL similarities is implementation-defined (numpy's
introsort keeps them in index order only below its insertion-sort
cutoff, and the dispatch varies across numpy versions and CPUs).
This embedding fixes one admissible tie order — ascending index — so
the definition is a correct model of the call only up to the order of
ties; no theorem in this file depends on the tie order (the claim
about the tie-break itself is left unsettled for exactly this
reason). -/
def argsortDesc (sims : List ℚ) : List ℕ :=
  List.insertionSort (rankLE sims) (List.range sims.length)

/-- The loop body of `compute_consistency_for_df`
(`src/utils.py` lines 136-165) for one row: an absent chosen code
yields the zero/null result and the row continues; a present code is
scored from the similarity row by rank and `score_consistency`. -/
def scoreOneRow (codigos : List String) (sims : List ℚ) (codigo_elegido : String) :
    ScoreResult :=
  match lookupLast codigos codigo_elegido with
  | none => ⟨0, none, 0, 0, none⟩
  | some j_sel =>
      let sim_sel := simAt sims j_sel
      let sim_best := npMax sims
      let order := argsortDesc sims
      let rank_sel := order.indexOf j_sel + 1
      let codigo_best := codigos.getD (order.headD 0) ""
      ⟨score_consistency sim_sel sim_best (rank_sel : ℤ), some codigo_best,
        sim_sel, sim_best, some rank_sel⟩

/-- Python `catalog = df[[codigo, texto]].drop_duplicates()`. -/
def catalogOf (rows : List ActRow) : List (String × String) :=
  dedupFirst (rows.map (fun r => (r.codigo, r.objetivo)))

def catalogCodes (rows : List ActRow) : List String := (catalogOf rows).map Prod.fst

/-- Function `compute_consistency_for_df` from `src/utils.py` (lines 83-173).
`sim i j` is the cosine similarity of activity row `i` and catalog
entry `j` produced by the fitted model; a Python exception is
`Except.error`. -/
def compute_consistency_for_df (sim : ℕ → ℕ → ℚ) (rows : List ActRow) :
    Except String (List ScoredRow) :=
  let codigos := catalogCodes rows
  let textos_obj := (catalogOf rows).map Prod.snd
  let textos_act := rows.map (fun r => r.actividad ++ " " ++ r.detalle)
  match build_tfidf_model textos_obj textos_act with
  | .error e => .error e
  | .ok _ =>
      .ok (rows.mapIdx (fun i r =>
        ⟨r, scoreOneRow codigos ((List.range codigos.length).map (sim i)) r.codigo⟩))

/-! ### C2: behaviour on the empty batch -/

/-- C2 (evaluation at the failing input): on a zero-row input table —
hence a zero-entry catalog and an empty joint corpus — the pipeline
does NOT return an empty output table: the vectorizer's vocabulary is
empty, so `build_tfidf_model` raises sklearn's empty-vocabulary
`ValueError` and `compute_consistency_for_df` propagates it, for every
similarity matrix. -/
theorem compute_consistency_empty_input_raises (sim : ℕ → ℕ → ℚ) :
    compute_consistency_for_df sim [] =
      .error "empty vocabulary; perhaps the documents only contain stop words" := rfl

/-! ### C3: rows whose chosen code is absent from the catalog -/

/-- C3: a row whose chosen objective code does not occur in the
catalog is scored `0` with `none` rank, `none` best match and both
similarities `0.0` — and the batch never aborts on such rows: whenever
the model fit succeeds, the output is exactly one scored row per input
row, each produced by the same per-row scorer. -/
theorem missing_code_row_scored_zero
    (codigos : List String) (sims : List ℚ) (c : String)
    (h : lookupLast codigos c = none) :
    scoreOneRow codigos sims c = ⟨0, none, 0, 0, none⟩ ∧
      ∀ (sim : ℕ → ℕ → ℚ) (rows : List ActRow) (out : List ScoredRow),
        compute_consistency_for_df sim rows = .ok out →
        out = rows.mapIdx (fun i r =>
          ⟨r, scoreOneRow (catalogCodes rows)
            ((List.range (catalogCodes rows).length).map (sim i)) r.codigo⟩) := by
  constructor
  · rw [scoreOneRow, h]
  · intro sim rows out hout
    rw [compute_consistency_for_df] at hout
    rcases hb : build_tfidf_model ((catalogOf rows).map Prod.snd)
        (rows.map (fun r => r.actividad ++ " " ++ r.detalle)) with e | m
    · rw [hb] at hout
      cases hout
    · rw [hb] at hout
      exact (Except.ok.injEq _ _).mp hout.symm |>.symm ▸ rfl

theorem missing_code_row_scored_zero_witness :
    lookupLast ["OE1", "OE2"] "OE9" = none ∧
      scoreOneRow ["OE1", "OE2"] [(1 : ℚ), 1/2] "OE9" = ⟨0, none, 0, 0, none⟩ :=
  ⟨by decide,
    (missing_code_row_scored_zero ["OE1", "OE2"] [(1 : ℚ), 1/2] "OE9" (by decide)).1⟩

end PEI
